import Mathlib

/-!
Verification of the wasm-signer cryptographic core
(`wasm-signer/src/lib.rs`): a shallow embedding of the Rust source in
Lean 4, followed by theorems settling the specification's claims.

Modelling conventions:
* `FieldElement` (from the external `starknet_crypto` crate) is modelled as a
  natural number `< FIELD_PRIME`; its fallible constructors are modelled as
  range checks returning `Except`.
* `BigUint` is modelled as `Nat`.
* Rust strings are modelled as `List Char`; byte strings as `List Nat`
  (each entry `< 256`).
* The external primitives (SHA-256 digest, the Poseidon sponge, the RFC 6979
  nonce generator and the curve-point `r` computation) are out of scope per
  the specification and are taken as function parameters.
* The unbounded grinding loop is given explicit fuel; the Rust loop's
  infinite behaviour corresponds to `none`.
-/

namespace StarkSigner

/-- Error taxonomy of the signer core; the Rust source reports these as
formatted strings. -/
inductive SignerError where
  | invalidSignatureLength
  | stringTooLong
  | valueOutOfRange
  | invalidHexEncoding
  | keyDerivationExhausted
deriving DecidableEq

/-- StarkNet field prime `P = 2^251 + 17 * 2^192 + 1`, the modulus of
`starknet_crypto::FieldElement`. -/
def FIELD_PRIME : Nat :=
  3618502788666131213697322783095070105623107215331596699973092056135872020481

/-- Literal `two_256` from `grind_key`: `2^256`. -/
def TWO_256 : Nat :=
  115792089237316195423570985008687907853269984665640564039457584007913129639936

/-- Literal `key_value_limit` from `grind_key`: the Stark curve order. -/
def KEY_VALUE_LIMIT : Nat :=
  3618502788666131213697322783095070105526743751716087489154079457884512865583

/-- Literal `curve_order` from `sign` (same value as `KEY_VALUE_LIMIT`). -/
def CURVE_ORDER : Nat :=
  3618502788666131213697322783095070105526743751716087489154079457884512865583

/-- Bound `max_allowed_value = 2^256 - (2^256 % key_value_limit)` from
`grind_key`. -/
def MAX_ALLOWED_VALUE : Nat := TWO_256 - TWO_256 % KEY_VALUE_LIMIT

/-- Constant `STARKNET_DOMAIN_SELECTOR` from the source. -/
def STARKNET_DOMAIN_SELECTOR : Nat :=
  0x1ff2f602e42168014d405a94f75e8a93d640751d71d16311266e140d8b0a210

/-- Constant `ORDER_SELECTOR` from the source. -/
def ORDER_SELECTOR : Nat :=
  0x36da8d51815527cabfaa9c982f564c80fa7429616739306036f1f9b608dd112

/-- Constant `TRANSFER_ARGS_SELECTOR` from the source. -/
def TRANSFER_ARGS_SELECTOR : Nat :=
  0x1db88e2709fdf2c59e651d141c3296a42b209ce770871b40413ea109846a3b4

/-- Constant `WITHDRAWAL_ARGS_SELECTOR` from the source. -/
def WITHDRAWAL_ARGS_SELECTOR : Nat :=
  0x250a5fa378e8b771654bd43dcb34844534f9d1e29e16b14760d7936ea7f4b1d

/-- ASCII bytes of the string literal described as StarkNet Message in the
source (16 bytes). -/
def STARKNET_MESSAGE_BYTES : List Nat :=
  [83, 116, 97, 114, 107, 78, 101, 116, 32, 77, 101, 115, 115, 97, 103, 101]

/-- Big-endian byte-list to natural number, the semantics of
`BigUint::from_bytes_be`. -/
def bytesToNat (l : List Nat) : Nat := l.foldl (fun acc b => acc * 256 + b) 0

/-- Little-endian base-`b` digits of `n`, computed with explicit fuel so that
the definition reduces in the kernel.  With `n ≤ fuel` this agrees with
`Nat.digits b n` for `2 ≤ b`. -/
def natDigitsLE (b : Nat) : Nat → Nat → List Nat
  | 0, _ => []
  | fuel + 1, n => if n = 0 then [] else n % b :: natDigitsLE b fuel (n / b)

/-- Minimal big-endian base-256 digits of `n` (empty for zero). -/
def natBytesBE (n : Nat) : List Nat := (natDigitsLE 256 n n).reverse

/-- Semantics of `BigUint::to_bytes_be`: minimal big-endian bytes, with zero
encoded as the single byte `0x00`. -/
def toBytesBE (n : Nat) : List Nat := if n = 0 then [0] else natBytesBE n

/-- Fixed-width big-endian byte encoding, the semantics of
`FieldElement::to_bytes_be` (with `len = 32`). -/
def natToBytesFixed : Nat → Nat → List Nat
  | 0, _ => []
  | k + 1, n => natToBytesFixed k (n / 256) ++ [n % 256]

/-- Lowercase hexadecimal digit character for a value `< 16`. -/
def hexDigitChar (n : Nat) : Char :=
  if n < 10 then Char.ofNat (48 + n) else Char.ofNat (87 + n)

/-- Semantics of `BigUint::to_str_radix(16)`: minimal lowercase hex digits,
with zero rendered as the single character representing zero. -/
def toStrRadix16 (n : Nat) : List Char :=
  if n = 0 then [hexDigitChar 0] else ((natDigitsLE 16 n n).reverse).map hexDigitChar

/-- Minimal hex rendering block shared by the three message-hash functions:
`format!` of the prefix followed by `to_str_radix(16)` with the (dead)
empty-string fallback. -/
def renderHexMinimal (n : Nat) : List Char :=
  let hx := toStrRadix16 n
  let prefixed := if hx = [] then [hexDigitChar 0] else hx
  Char.ofNat 48 :: Char.ofNat 120 :: prefixed

/-- Semantics of `hex::encode` applied to a byte list: two lowercase hex
characters per byte. -/
def hexEncodeBytes (bytes : List Nat) : List Char :=
  (bytes.map (fun b => [hexDigitChar (b / 16), hexDigitChar (b % 16)])).flatten

/-- Value of a single hexadecimal character, if any (semantics of the digit
check inside `hex::decode`). -/
def hexDigitVal (c : Char) : Option Nat :=
  if 48 ≤ c.toNat ∧ c.toNat ≤ 57 then some (c.toNat - 48)
  else if 97 ≤ c.toNat ∧ c.toNat ≤ 102 then some (c.toNat - 87)
  else if 65 ≤ c.toNat ∧ c.toNat ≤ 70 then some (c.toNat - 55)
  else none

/-- Semantics of `hex::decode`: pairs of hex characters to bytes, failing on
an odd length or a non-hex character. -/
def hexDecode : List Char → Option (List Nat)
  | [] => some []
  | [_] => none
  | c1 :: c2 :: rest =>
    match hexDigitVal c1, hexDigitVal c2, hexDecode rest with
    | some hi, some lo, some bs => some ((16 * hi + lo) :: bs)
    | _, _, _ => none

/-- Semantics of `trim_start_matches` with the two-character `0x` pattern:
every leading occurrence of the pattern is removed. -/
def trim0x : List Char → List Char
  | c1 :: c2 :: rest =>
    if c1 = Char.ofNat 48 ∧ c2 = Char.ofNat 120 then trim0x rest
    else c1 :: c2 :: rest
  | l => l

/-- Range check of `FieldElement::from_hex_be` / `from_dec_str` on an already
parsed integer value: values `≥ FIELD_PRIME` are rejected. -/
def parseFelt (v : Nat) : Except SignerError Nat :=
  if v < FIELD_PRIME then .ok v else .error .valueOutOfRange

/-- Semantics of `FieldElement::from_bytes_be`, which fails when the 32-byte
big-endian value is not below the field prime. -/
def fromBytesBEChecked (l : List Nat) : Except SignerError Nat :=
  if bytesToNat l < FIELD_PRIME then .ok (bytesToNat l) else .error .valueOutOfRange

/-- Embedding of `cairo_short_string_to_felt` from the source: strings longer
than 31 bytes are rejected, otherwise the bytes are right-aligned in a
32-byte big-endian buffer and interpreted as a field element. -/
def cairo_short_string_to_felt (s : List Nat) : Except SignerError Nat :=
  if s.length > 31 then .error .stringTooLong
  else
    let felt_bytes := List.replicate (32 - s.length) 0 ++ s
    fromBytesBEChecked felt_bytes

/-- Embedding of `FieldElement::from(n: u64)`: the value of a `u64` as a
field element (always below the prime). -/
def fromU64 (n : Nat) : Nat := n % FIELD_PRIME

/-- Field subtraction on the StarkNet field, the semantics of the
`FieldElement` subtraction used by `i64_to_felt`. -/
def fieldSub (a b : Nat) : Nat := (a + FIELD_PRIME - b) % FIELD_PRIME

/-- Wrapping `i64` negation: the value the Rust expression computes for
`-value` under two's-complement wraparound semantics. -/
def i64WrapNeg (v : Int) : Int := (-v + 2 ^ 63) % 2 ^ 64 - 2 ^ 63

/-- Semantics of the Rust cast `as u64` applied to an `i64` value. -/
def intAsU64 (v : Int) : Nat := (v % 2 ^ 64).toNat

/-- Overflow condition of the Rust expression `-value` at `i64` type: the
mathematical negation falls outside the `i64` range. -/
def i64NegOverflows (v : Int) : Bool :=
  decide (-v < -(2 ^ 63) ∨ 2 ^ 63 ≤ -v)

/-- Embedding of `i64_to_felt` from the source: non-negative values are cast
to `u64` and embedded; negative values are negated (with `i64` wraparound
semantics), cast to `u64`, embedded, and subtracted from zero in the
field. -/
def i64_to_felt (v : Int) : Nat :=
  if 0 ≤ v then fromU64 (intAsU64 v)
  else fieldSub (fromU64 0) (fromU64 (intAsU64 (i64WrapNeg v)))

/-- Hash input built in each iteration of the `grind_key` loop: the
concatenation of `key_seed.to_bytes_be()` and `index.to_bytes_be()`. -/
def grind_key_hash_input (key_seed index : Nat) : List Nat :=
  toBytesBE key_seed ++ toBytesBE index

/-- Loop body of `grind_key`, with explicit fuel standing for the unbounded
Rust loop; `digest` is the external SHA-256 primitive (byte list to 32-byte
digest). -/
def grind_key_loop (digest : List Nat → List Nat) (key_seed : Nat) :
    Nat → Nat → Option Nat
  | 0, _ => none
  | fuel + 1, index =>
    if bytesToNat (digest (grind_key_hash_input key_seed index)) < MAX_ALLOWED_VALUE then
      some (bytesToNat (digest (grind_key_hash_input key_seed index)) % KEY_VALUE_LIMIT)
    else grind_key_loop digest key_seed fuel (index + 1)

/-- Embedding of `grind_key` from the source, starting the loop at index
zero. -/
def grind_key (digest : List Nat → List Nat) (fuel : Nat) (key_seed : Nat) :
    Option Nat :=
  grind_key_loop digest key_seed fuel 0

/-- Embedding of `get_private_key_from_eth_signature_internal` from the
source: repeatedly strip the two-character hex marker, require at least 64
remaining characters, hex-decode the first 64 characters into the `r`
component, grind it into a key, and convert the result to a field element. -/
def get_private_key_from_eth_signature_internal
    (digest : List Nat → List Nat) (fuel : Nat) (signature : List Char) :
    Except SignerError Nat :=
  let eth_sig_truncated := trim0x signature
  if eth_sig_truncated.length < 64 then .error .invalidSignatureLength
  else
    match hexDecode (eth_sig_truncated.take 64) with
    | none => .error .invalidHexEncoding
    | some r_bytes =>
      let r_int := bytesToNat r_bytes
      match grind_key digest fuel r_int with
      | none => .error .keyDerivationExhausted
      | some ground_key => parseFelt ground_key

/-- The `s`-computation of `sign` from the source, over already converted
integers: `r * priv` reduced, added to the hash and reduced, multiplied by
`k^(curve_order - 2) mod curve_order` (the `modpow` inverse) and reduced. -/
def sign_s (k r hash priv : Nat) : Nat :=
  let r_times_priv := r * priv % CURVE_ORDER
  let hash_plus_r_priv := (hash + r_times_priv) % CURVE_ORDER
  let k_inv := k ^ (CURVE_ORDER - 2) % CURVE_ORDER
  k_inv * hash_plus_r_priv % CURVE_ORDER

/-- Signature pair produced by `sign`: `K` is the external RFC 6979 nonce
generator, `Rx` the external map from the nonce to the x-coordinate of
`k·G` (the `r` of `starknet_crypto::sign`). -/
def sign_pair (K : Nat → Nat → Nat) (Rx : Nat → Nat)
    (private_key msg_hash : Nat) : Nat × Nat :=
  let k := K private_key msg_hash
  let r := Rx k
  (r, sign_s k r msg_hash private_key)

/-- Embedding of the public `sign` operation: the two signature components
rendered as fixed-width (32-byte) lowercase hex strings with the two
marker characters prepended. -/
def sign (K : Nat → Nat → Nat) (Rx : Nat → Nat)
    (private_key msg_hash : Nat) : List (List Char) :=
  let p := sign_pair K Rx private_key msg_hash
  [Char.ofNat 48 :: Char.ofNat 120 :: hexEncodeBytes (natToBytesFixed 32 p.1),
   Char.ofNat 48 :: Char.ofNat 120 :: hexEncodeBytes (natToBytesFixed 32 p.2)]

/-- Embedding of `hash_starknet_domain` from the source: Poseidon over the
domain selector, the three encoded short strings and the revision.  `S` is
the external Poseidon sponge (`PoseidonHasher` update sequence to
`finalize`). -/
def hash_starknet_domain (S : List Nat → Nat)
    (name version chain_id : List Nat) (revision : Nat) :
    Except SignerError Nat := do
  let selector ← parseFelt STARKNET_DOMAIN_SELECTOR
  let name_felt ← cairo_short_string_to_felt name
  let version_felt ← cairo_short_string_to_felt version
  let chain_id_felt ← cairo_short_string_to_felt chain_id
  .ok (S [selector, name_felt, version_felt, chain_id_felt, revision])

/-- Embedding of `get_order_msg_hash` from the source.  Inputs are the
already parsed numeric values (string parsing is external glue): the `u64`
position id, asset ids and the public key as integers checked against the
field prime, signed amounts as `i64` values, unsigned amounts and
timestamps as `u64` values, domain strings as byte lists. -/
def get_order_msg_hash (S : List Nat → Nat)
    (position_id : Nat) (base_asset_id : Nat) (base_amount : Int)
    (quote_asset_id : Nat) (quote_amount : Int) (fee_amount : Nat)
    (fee_asset_id : Nat) (expiration : Nat) (salt : Nat)
    (user_public_key : Nat)
    (domain_name domain_version domain_chain_id : List Nat)
    (domain_revision : Nat) : Except SignerError (List Char) := do
  let position_id_u32 := position_id % 2 ^ 32
  let base_asset_id_felt ← parseFelt base_asset_id
  let quote_asset_id_felt ← parseFelt quote_asset_id
  let fee_asset_id_felt ← parseFelt fee_asset_id
  let salt_felt := fromU64 salt
  let user_key_felt ← parseFelt user_public_key
  let order_selector ← parseFelt ORDER_SELECTOR
  let order_hash := S [order_selector, fromU64 position_id_u32,
    base_asset_id_felt, i64_to_felt base_amount, quote_asset_id_felt,
    i64_to_felt quote_amount, fee_asset_id_felt, fromU64 fee_amount,
    fromU64 expiration, salt_felt]
  let domain_hash ← hash_starknet_domain S domain_name domain_version
    domain_chain_id domain_revision
  let message_felt ← cairo_short_string_to_felt STARKNET_MESSAGE_BYTES
  let result := S [message_felt, domain_hash, user_key_felt, order_hash]
  .ok (renderHexMinimal result)

/-- Embedding of `get_transfer_msg_hash` from the source: both position ids
are cast to `u32`, the salt is a parsed decimal field element. -/
def get_transfer_msg_hash (S : List Nat → Nat)
    (recipient_position_id sender_position_id : Nat) (amount : Nat)
    (expiration : Nat) (salt : Nat) (user_public_key : Nat)
    (domain_name domain_version domain_chain_id : List Nat)
    (domain_revision : Nat) (collateral_id : Nat) :
    Except SignerError (List Char) := do
  let recipient := recipient_position_id % 2 ^ 32
  let position_id := sender_position_id % 2 ^ 32
  let salt_felt ← parseFelt salt
  let collateral_id_felt ← parseFelt collateral_id
  let user_key_felt ← parseFelt user_public_key
  let transfer_selector ← parseFelt TRANSFER_ARGS_SELECTOR
  let transfer_hash := S [transfer_selector, fromU64 recipient,
    fromU64 position_id, collateral_id_felt, fromU64 amount,
    fromU64 expiration, salt_felt]
  let domain_hash ← hash_starknet_domain S domain_name domain_version
    domain_chain_id domain_revision
  let message_felt ← cairo_short_string_to_felt STARKNET_MESSAGE_BYTES
  let result := S [message_felt, domain_hash, user_key_felt, transfer_hash]
  .ok (renderHexMinimal result)

/-- Embedding of `get_withdrawal_msg_hash` from the source: the recipient is
a field element, the position id is cast to `u32`, the salt is a parsed
decimal field element. -/
def get_withdrawal_msg_hash (S : List Nat → Nat)
    (recipient : Nat) (position_id : Nat) (amount : Nat)
    (expiration : Nat) (salt : Nat) (user_public_key : Nat)
    (domain_name domain_version domain_chain_id : List Nat)
    (domain_revision : Nat) (collateral_id : Nat) :
    Except SignerError (List Char) := do
  let recipient_felt ← parseFelt recipient
  let position_id_u32 := position_id % 2 ^ 32
  let salt_felt ← parseFelt salt
  let collateral_id_felt ← parseFelt collateral_id
  let user_key_felt ← parseFelt user_public_key
  let withdrawal_selector ← parseFelt WITHDRAWAL_ARGS_SELECTOR
  let withdrawal_hash := S [withdrawal_selector, recipient_felt,
    fromU64 position_id_u32, collateral_id_felt, fromU64 amount,
    fromU64 expiration, salt_felt]
  let domain_hash ← hash_starknet_domain S domain_name domain_version
    domain_chain_id domain_revision
  let message_felt ← cairo_short_string_to_felt STARKNET_MESSAGE_BYTES
  let result := S [message_felt, domain_hash, user_key_felt, withdrawal_hash]
  .ok (renderHexMinimal result)

/-! Helper lemmas about the byte and digit codecs. -/

theorem natDigitsLE_eq_digits (b : Nat) (hb : 2 ≤ b) :
    ∀ fuel n, n ≤ fuel → natDigitsLE b fuel n = Nat.digits b n := by
  intro fuel
  induction fuel with
  | zero =>
    intro n hn
    have : n = 0 := by omega
    subst this
    simp [natDigitsLE]
  | succ fuel ih =>
    intro n hn
    by_cases h0 : n = 0
    · subst h0; simp [natDigitsLE]
    · rw [natDigitsLE, if_neg h0,
        Nat.digits_def' (by omega : 1 < b) (Nat.pos_of_ne_zero h0)]
      congr 1
      apply ih
      have : n / b < n := Nat.div_lt_self (Nat.pos_of_ne_zero h0) (by omega)
      omega

theorem bytesToNat_append_singleton (l : List Nat) (b : Nat) :
    bytesToNat (l ++ [b]) = bytesToNat l * 256 + b := by
  simp [bytesToNat, List.foldl_append]

theorem bytesToNat_eq_ofDigits (l : List Nat) :
    bytesToNat l = Nat.ofDigits 256 l.reverse := by
  induction l using List.reverseRecOn with
  | nil => rfl
  | append_singleton t b ih =>
    rw [bytesToNat_append_singleton, List.reverse_append]
    simp [Nat.ofDigits_cons, ih]
    ring

theorem bytesToNat_lt (l : List Nat) (h : ∀ b ∈ l, b < 256) :
    bytesToNat l < 256 ^ l.length := by
  rw [bytesToNat_eq_ofDigits]
  have hrev : ∀ x ∈ l.reverse, x < 256 := fun x hx =>
    h x (List.mem_reverse.mp hx)
  have := Nat.ofDigits_lt_base_pow_length
    (show (1 : Nat) < 256 by norm_num) hrev
  simpa using this

theorem bytesToNat_replicate_zero_append (m : Nat) (s : List Nat) :
    bytesToNat (List.replicate m 0 ++ s) = bytesToNat s := by
  induction m with
  | zero => rfl
  | succ m ih =>
    simpa [bytesToNat, List.replicate_succ] using ih

theorem natToBytesFixed_bytesToNat :
    ∀ (k : Nat) (s : List Nat), s.length = k → (∀ b ∈ s, b < 256) →
      natToBytesFixed k (bytesToNat s) = s := by
  intro k
  induction k with
  | zero =>
    intro s hs _
    rw [List.length_eq_zero] at hs
    subst hs
    rfl
  | succ k ih =>
    intro s hs hb
    rcases List.eq_nil_or_concat s with rfl | ⟨t, b, rfl⟩
    · simp at hs
    · rw [List.concat_eq_append] at *
      rw [bytesToNat_append_singleton]
      have hblt : b < 256 := hb b (by simp)
      have ht : t.length = k := by simpa using hs
      have hdiv : (bytesToNat t * 256 + b) / 256 = bytesToNat t := by omega
      have hmod : (bytesToNat t * 256 + b) % 256 = b := by omega
      rw [natToBytesFixed, hdiv, hmod,
        ih t ht (fun x hx => hb x (by simp [hx]))]

theorem toBytesBE_eq_digits {n : Nat} (hn : n ≠ 0) :
    toBytesBE n = (Nat.digits 256 n).reverse := by
  rw [toBytesBE, if_neg hn, natBytesBE,
    natDigitsLE_eq_digits 256 (by norm_num) n n le_rfl]

theorem bytesToNat_toBytesBE (n : Nat) : bytesToNat (toBytesBE n) = n := by
  by_cases hn : n = 0
  · subst hn; rfl
  · rw [toBytesBE_eq_digits hn, bytesToNat_eq_ofDigits, List.reverse_reverse,
      Nat.ofDigits_digits]

theorem toBytesBE_head_ne_zero {n : Nat} (hn : n ≠ 0) :
    ∃ a t, toBytesBE n = a :: t ∧ a ≠ 0 := by
  have hne : Nat.digits 256 n ≠ [] := Nat.digits_ne_nil_iff_ne_zero.mpr hn
  refine ⟨(Nat.digits 256 n).getLast hne, (Nat.digits 256 n).dropLast.reverse,
    ?_, Nat.getLast_digit_ne_zero 256 hn⟩
  rw [toBytesBE_eq_digits hn]
  conv_lhs => rw [← List.dropLast_append_getLast hne]
  simp

theorem toBytesBE_length_lt {n : Nat} (hn : n ≠ 0) (h : n < 256 ^ 31) :
    (toBytesBE n).length < 32 := by
  rw [toBytesBE_eq_digits hn, List.length_reverse]
  by_contra hlen
  push_neg at hlen
  have h1 := Nat.base_pow_length_digits_le 256 n (by norm_num) hn
  have h2 : (256 : Nat) ^ 32 ≤ 256 ^ (Nat.digits 256 n).length :=
    Nat.pow_le_pow_right (by norm_num) hlen
  have h3 : (256 : Nat) ^ 32 ≤ 256 * n := le_trans h2 h1
  have h4 : (256 : Nat) ^ 32 = 256 * 256 ^ 31 := by ring
  omega

/-! Helper lemmas about the grinding loop and the field-element checks. -/

theorem grind_key_loop_lt (digest : List Nat → List Nat) (seed : Nat) :
    ∀ fuel index v, grind_key_loop digest seed fuel index = some v →
      v < KEY_VALUE_LIMIT := by
  intro fuel
  induction fuel with
  | zero => intro i v h; simp [grind_key_loop] at h
  | succ fuel ih =>
    intro i v h
    rw [grind_key_loop] at h
    split at h
    · cases h
      exact Nat.mod_lt _ (by decide)
    · exact ih _ _ h

theorem grind_key_loop_finds (digest : List Nat → List Nat) (seed : Nat) :
    ∀ fuel start k,
      (∀ j, j < k →
        ¬ bytesToNat (digest (grind_key_hash_input seed (start + j)))
            < MAX_ALLOWED_VALUE) →
      bytesToNat (digest (grind_key_hash_input seed (start + k)))
          < MAX_ALLOWED_VALUE →
      k < fuel →
      grind_key_loop digest seed fuel start =
        some (bytesToNat (digest (grind_key_hash_input seed (start + k)))
          % KEY_VALUE_LIMIT) := by
  intro fuel
  induction fuel with
  | zero => intro s k _ _ h; omega
  | succ fuel ih =>
    intro s k hmiss hhit hk
    by_cases h0 :
        bytesToNat (digest (grind_key_hash_input seed s)) < MAX_ALLOWED_VALUE
    · have hk0 : k = 0 := by
        by_contra hne
        exact hmiss 0 (Nat.pos_of_ne_zero hne) (by simpa using h0)
      subst hk0
      rw [grind_key_loop, if_pos h0]
      simp
    · have hne : k ≠ 0 := by
        intro hk0
        subst hk0
        exact h0 (by simpa using hhit)
      obtain ⟨k', rfl⟩ := Nat.exists_eq_succ_of_ne_zero hne
      rw [grind_key_loop, if_neg h0]
      have hidx : s + (k' + 1) = s + 1 + k' := by omega
      rw [hidx] at hhit
      have := ih (s + 1) k'
        (fun j hj => by
          have h' := hmiss (j + 1) (by omega)
          have : s + (j + 1) = s + 1 + j := by omega
          rwa [this] at h')
        hhit (by omega)
      rw [this, show s + k'.succ = s + 1 + k' by omega]

theorem parseFelt_ok {v : Nat} (h : v < FIELD_PRIME) : parseFelt v = .ok v := by
  rw [parseFelt, if_pos h]

theorem pow_256_31_lt_prime : (256 : Nat) ^ 31 < FIELD_PRIME := by decide

theorem cairo_short_string_value {s : List Nat} (hlen : s.length ≤ 31)
    (hb : ∀ b ∈ s, b < 256) :
    cairo_short_string_to_felt s = .ok (bytesToNat s) := by
  rw [cairo_short_string_to_felt, if_neg (by omega)]
  show fromBytesBEChecked (List.replicate (32 - s.length) 0 ++ s) = _
  rw [fromBytesBEChecked, bytesToNat_replicate_zero_append]
  have hlt : bytesToNat s < FIELD_PRIME := by
    have h1 := bytesToNat_lt s hb
    have h2 : (256 : Nat) ^ s.length ≤ 256 ^ 31 :=
      Nat.pow_le_pow_right (by norm_num) hlen
    have h3 := pow_256_31_lt_prime
    omega
  rw [if_pos hlt]

/-! Helper lemmas about hex rendering and zero-trimming. -/

/-- The sixteen lowercase hexadecimal digit characters. -/
def HEX_CHARS_LOWER : List Char :=
  [Char.ofNat 48, Char.ofNat 49, Char.ofNat 50, Char.ofNat 51, Char.ofNat 52,
   Char.ofNat 53, Char.ofNat 54, Char.ofNat 55, Char.ofNat 56, Char.ofNat 57,
   Char.ofNat 97, Char.ofNat 98, Char.ofNat 99, Char.ofNat 100,
   Char.ofNat 101, Char.ofNat 102]

theorem hexDigitChar_mem {d : Nat} (hd : d < 16) :
    hexDigitChar d ∈ HEX_CHARS_LOWER := by
  interval_cases d <;> decide

theorem hexDigitChar_ne_zero_char {d : Nat} (h0 : d ≠ 0) (hd : d < 16) :
    hexDigitChar d ≠ Char.ofNat 48 := by
  interval_cases d <;> simp_all <;> decide

theorem toStrRadix16_eq_digits {n : Nat} (hn : n ≠ 0) :
    toStrRadix16 n = ((Nat.digits 16 n).reverse).map hexDigitChar := by
  rw [toStrRadix16, if_neg hn, natDigitsLE_eq_digits 16 (by norm_num) n n le_rfl]

theorem toStrRadix16_ne_nil (n : Nat) : toStrRadix16 n ≠ [] := by
  by_cases hn : n = 0
  · subst hn; simp [toStrRadix16]
  · rw [toStrRadix16_eq_digits hn]
    simp [Nat.digits_ne_nil_iff_ne_zero.mpr hn]

theorem toStrRadix16_head_ne_zero {n : Nat} (hn : n ≠ 0) :
    ∃ c t, toStrRadix16 n = c :: t ∧ c ≠ Char.ofNat 48 := by
  have hne : Nat.digits 16 n ≠ [] := Nat.digits_ne_nil_iff_ne_zero.mpr hn
  refine ⟨hexDigitChar ((Nat.digits 16 n).getLast hne),
    ((Nat.digits 16 n).dropLast.reverse).map hexDigitChar, ?_, ?_⟩
  · rw [toStrRadix16_eq_digits hn]
    conv_lhs => rw [← List.dropLast_append_getLast hne]
    simp
  · exact hexDigitChar_ne_zero_char (Nat.getLast_digit_ne_zero 16 hn)
      (Nat.digits_lt_base (by norm_num) (List.getLast_mem hne))

theorem toStrRadix16_mem_lower (n : Nat) :
    ∀ c ∈ toStrRadix16 n, c ∈ HEX_CHARS_LOWER := by
  by_cases hn : n = 0
  · subst hn
    intro c hc
    simp [toStrRadix16] at hc
    subst hc
    exact hexDigitChar_mem (by norm_num)
  · rw [toStrRadix16_eq_digits hn]
    intro c hc
    simp only [List.mem_map, List.mem_reverse] at hc
    obtain ⟨d, hd, rfl⟩ := hc
    exact hexDigitChar_mem (Nat.digits_lt_base (by norm_num) hd)

theorem renderHexMinimal_eq (n : Nat) :
    renderHexMinimal n = Char.ofNat 48 :: Char.ofNat 120 :: toStrRadix16 n := by
  rw [renderHexMinimal]
  simp [toStrRadix16_ne_nil n]

theorem dropWhile_zero_replicate (m : Nat) (s : List Nat) :
    List.dropWhile (fun b => b == 0) (List.replicate m 0 ++ s) =
      List.dropWhile (fun b => b == 0) s := by
  induction m with
  | zero => rfl
  | succ m ih => simp [List.replicate_succ, List.dropWhile, ih]

theorem dropWhile_zero_of_head {s : List Nat}
    (h : s = [] ∨ ∃ a t, s = a :: t ∧ a ≠ 0) :
    List.dropWhile (fun b => b == 0) s = s := by
  rcases h with rfl | ⟨a, t, rfl, ha⟩
  · rfl
  · have hfalse : (a == 0) = false := beq_eq_false_iff_ne.mpr ha
    simp [List.dropWhile, hfalse]

theorem short_string_roundtrip {s : List Nat} (hlen : s.length ≤ 31)
    (hb : ∀ b ∈ s, b < 256)
    (hhead : s = [] ∨ ∃ a t, s = a :: t ∧ a ≠ 0) :
    List.dropWhile (fun b => b == 0) (natToBytesFixed 32 (bytesToNat s)) = s := by
  have h32 : (List.replicate (32 - s.length) 0 ++ s).length = 32 := by
    simp
    omega
  have hall : ∀ b ∈ List.replicate (32 - s.length) 0 ++ s, b < 256 := by
    intro b hbmem
    rcases List.mem_append.mp hbmem with hmem | hmem
    · have := List.eq_of_mem_replicate hmem
      omega
    · exact hb b hmem
  have hfix := natToBytesFixed_bytesToNat 32
    (List.replicate (32 - s.length) 0 ++ s) h32 hall
  rw [bytesToNat_replicate_zero_append] at hfix
  rw [hfix, dropWhile_zero_replicate, dropWhile_zero_of_head hhead]

/-! Helper lemmas about the i64 encoding. -/

theorem intAsU64_wrapNeg {v : Int} (h1 : -(2 ^ 63) ≤ v) (hneg : v < 0) :
    intAsU64 (i64WrapNeg v) = v.natAbs := by
  rw [intAsU64, i64WrapNeg]
  have e63 : (2 : Int) ^ 63 = 9223372036854775808 := by norm_num
  have e64 : (2 : Int) ^ 64 = 18446744073709551616 := by norm_num
  rw [e63, e64] at *
  omega

theorem prime_gt_two_pow_63 : 9223372036854775808 < FIELD_PRIME := by
  norm_num [FIELD_PRIME]

theorem i64_to_felt_cases (v : Int) (h1 : -(2 ^ 63) ≤ v) (h2 : v < 2 ^ 63) :
    (0 ≤ v → i64_to_felt v = v.toNat % FIELD_PRIME) ∧
    (v < 0 → i64_to_felt v = FIELD_PRIME - v.natAbs) := by
  have e63 : (2 : Int) ^ 63 = 9223372036854775808 := by norm_num
  have e64 : (2 : Int) ^ 64 = 18446744073709551616 := by norm_num
  constructor
  · intro h0
    rw [i64_to_felt, if_pos h0, fromU64, intAsU64]
    have hv : v % 2 ^ 64 = v := by
      rw [e64]; rw [e63] at h2; omega
    rw [hv]
  · intro hneg
    rw [i64_to_felt, if_neg (by omega), intAsU64_wrapNeg h1 hneg,
      fieldSub, fromU64, fromU64]
    have habs : v.natAbs ≤ 9223372036854775808 := by
      rw [e63] at h1; omega
    have hp := prime_gt_two_pow_63
    have habs0 : 0 < v.natAbs := by omega
    have hmod : v.natAbs % FIELD_PRIME = v.natAbs := Nat.mod_eq_of_lt (by omega)
    rw [hmod, Nat.zero_mod, Nat.zero_add, Nat.mod_eq_of_lt (by omega)]

/-- C7: for every in-range `i64` value `v`, the field encoding of a
non-negative `v` is `v` itself reduced into the field and that of a negative
`v` is `FIELD_PRIME - |v|` (field negation, no sign bit); moreover applying
field negation to the encoding of `-156` recovers `156`, and the encoding of
`0` is the zero field element. -/
theorem i64_to_felt_field_encoding :
    (∀ v : Int, -(2 ^ 63) ≤ v → v < 2 ^ 63 →
      (0 ≤ v → i64_to_felt v = v.toNat % FIELD_PRIME) ∧
      (v < 0 → i64_to_felt v = FIELD_PRIME - v.natAbs)) ∧
    fieldSub 0 (i64_to_felt (-156)) = 156 ∧
    i64_to_felt 0 = 0 := by
  refine ⟨i64_to_felt_cases, ?_, ?_⟩
  · have h156 := (i64_to_felt_cases (-156) (by norm_num) (by norm_num)).2
      (by norm_num)
    have habs : ((-156 : Int).natAbs) = 156 := by norm_num
    rw [h156, fieldSub, habs]
    have hp := prime_gt_two_pow_63
    have heq : (0 + FIELD_PRIME - (FIELD_PRIME - 156)) = 156 := by omega
    rw [heq, Nat.mod_eq_of_lt (by omega)]
  · rfl

/-- C7 witness: the theorem applied at the concrete values `5` and `-156`. -/
theorem i64_to_felt_field_encoding_witness :
    i64_to_felt 5 = (5 : Int).toNat % FIELD_PRIME ∧
    i64_to_felt (-156) = FIELD_PRIME - (-156 : Int).natAbs := by
  constructor
  · exact (i64_to_felt_field_encoding.1 5 (by norm_num) (by norm_num)).1
      (by norm_num)
  · exact (i64_to_felt_field_encoding.1 (-156) (by norm_num) (by norm_num)).2
      (by norm_num)

/-- C10 counterexample: at the minimum `i64` value `-2^63`, the Rust
negation `-value` in `i64_to_felt` overflows `i64` arithmetic, contradicting
the claim that it never overflows. -/
theorem i64_neg_overflow_at_min : i64NegOverflows (-(2 ^ 63)) = true := by
  rw [i64NegOverflows, decide_eq_true_iff]
  right
  norm_num

/-- C10 amended: the negation in `i64_to_felt` overflows exactly at the
minimum value `-2^63` and at no other in-range input; under the wrapping
semantics of release-mode Rust the function is still total and yields
`FIELD_PRIME - |v|` for every negative in-range `v`, including the
minimum. -/
theorem i64_neg_overflow_iff_min :
    ∀ v : Int, -(2 ^ 63) ≤ v → v < 2 ^ 63 →
      ((i64NegOverflows v = true) ↔ v = -(2 ^ 63)) ∧
      (v < 0 → i64_to_felt v = FIELD_PRIME - v.natAbs) := by
  intro v h1 h2
  constructor
  · rw [i64NegOverflows, decide_eq_true_iff]
    have e63 : (2 : Int) ^ 63 = 9223372036854775808 := by norm_num
    rw [e63] at *
    omega
  · exact (i64_to_felt_cases v h1 h2).2

/-- C10 amended witness: the theorem applied at `-2^63` and `-1`. -/
theorem i64_neg_overflow_iff_min_witness :
    ((i64NegOverflows (-(2 ^ 63)) = true) ↔ (-(2 ^ 63) : Int) = -(2 ^ 63)) ∧
    i64_to_felt (-1) = FIELD_PRIME - (-1 : Int).natAbs := by
  constructor
  · exact (i64_neg_overflow_iff_min (-(2 ^ 63)) (by norm_num) (by norm_num)).1
  · exact (i64_neg_overflow_iff_min (-1) (by norm_num) (by norm_num)).2
      (by norm_num)

/-- C2: for every private key and message hash, with `k` the deterministic
nonce and `r` the x-coordinate returned by the delegated primitives, the
second signature component computed by `sign` equals
`k⁻¹ * (hash + r * private_key) mod N` with `k⁻¹ = k^(N-2) mod N`. -/
theorem sign_s_matches_ecdsa_formula :
    ∀ (K : Nat → Nat → Nat) (Rx : Nat → Nat) (private_key msg_hash : Nat),
      (sign_pair K Rx private_key msg_hash).2 =
        (K private_key msg_hash) ^ (CURVE_ORDER - 2) % CURVE_ORDER *
          (msg_hash + Rx (K private_key msg_hash) * private_key)
          % CURVE_ORDER := by
  intro K Rx p h
  show sign_s (K p h) (Rx (K p h)) h p = _
  rw [sign_s]
  exact Nat.ModEq.mul (Nat.ModEq.refl _)
    ((Nat.mod_modEq _ _).trans (Nat.ModEq.add_left h (Nat.mod_modEq _ _)))

/-- C3: `grind_key` returns `h mod N` where `h` is the digest value (read
big-endian) at the smallest index satisfying `h < max_allowed_value`, and
every value it returns lies in `[0, KEY_VALUE_LIMIT)`. -/
theorem grind_key_first_accepted_digest :
    (∀ (digest : List Nat → List Nat) (seed i fuel : Nat),
      (∀ j, j < i →
        ¬ bytesToNat (digest (grind_key_hash_input seed j)) < MAX_ALLOWED_VALUE) →
      bytesToNat (digest (grind_key_hash_input seed i)) < MAX_ALLOWED_VALUE →
      i < fuel →
      grind_key digest fuel seed =
        some (bytesToNat (digest (grind_key_hash_input seed i))
          % KEY_VALUE_LIMIT)) ∧
    (∀ (digest : List Nat → List Nat) (fuel seed v : Nat),
      grind_key digest fuel seed = some v → v < KEY_VALUE_LIMIT) := by
  constructor
  · intro digest seed i fuel hmiss hhit hlt
    have h := grind_key_loop_finds digest seed fuel 0 i
      (by simpa using hmiss) (by simpa using hhit) hlt
    simpa [grind_key] using h
  · intro digest fuel seed v h
    exact grind_key_loop_lt digest seed fuel 0 v h

/-- C3 witness: with a digest that always returns the empty list, the first
index is accepted immediately and the ground key is `0`. -/
theorem grind_key_first_accepted_digest_witness :
    grind_key (fun _ => []) 1 0 = some 0 ∧ (0 : Nat) < KEY_VALUE_LIMIT := by
  have h := grind_key_first_accepted_digest.1 (fun _ => []) 0 0 1
    (by intro j hj; omega) (by decide) (by norm_num)
  refine ⟨by simpa [bytesToNat] using h, ?_⟩
  exact grind_key_first_accepted_digest.2 (fun _ => []) 1 0 0
    (by simpa [bytesToNat] using h)

/-- C9: the byte string fed to the digest by `grind_key` is the
concatenation of the minimal big-endian encodings of the seed and the index
(zero encoding as the single zero byte); the encoding round-trips, never has
a leading zero byte for nonzero values, and is shorter than 32 bytes for any
value below `256^31` (so a seed with leading zero bytes yields a shorter
hash input than a 32-byte-padded encoding would). -/
theorem grind_key_input_minimal_encoding :
    (∀ seed index : Nat,
      grind_key_hash_input seed index = toBytesBE seed ++ toBytesBE index ∧
      (grind_key_hash_input seed index).length =
        (toBytesBE seed).length + (toBytesBE index).length) ∧
    toBytesBE 0 = [0] ∧
    (∀ n : Nat, bytesToNat (toBytesBE n) = n) ∧
    (∀ n : Nat, n ≠ 0 → ∃ a t, toBytesBE n = a :: t ∧ a ≠ 0) ∧
    (∀ n : Nat, n ≠ 0 → n < 256 ^ 31 → (toBytesBE n).length < 32) := by
  refine ⟨fun seed index => ⟨rfl, List.length_append _ _⟩, rfl,
    bytesToNat_toBytesBE, fun n hn => toBytesBE_head_ne_zero hn,
    fun n hn hlt => toBytesBE_length_lt hn hlt⟩

/-- C9 witness: the theorem applied at seed `0` and index `1`, and at the
nonzero value `5`. -/
theorem grind_key_input_minimal_encoding_witness :
    grind_key_hash_input 0 1 = toBytesBE 0 ++ toBytesBE 1 ∧
    bytesToNat (toBytesBE 5) = 5 ∧
    (∃ a t, toBytesBE 5 = a :: t ∧ a ≠ 0) ∧
    (toBytesBE 5).length < 32 := by
  refine ⟨(grind_key_input_minimal_encoding.1 0 1).1,
    grind_key_input_minimal_encoding.2.2.1 5,
    grind_key_input_minimal_encoding.2.2.2.1 5 (by norm_num),
    grind_key_input_minimal_encoding.2.2.2.2 5 (by norm_num) (by norm_num)⟩

/-- C6 counterexample: the two-byte string whose first byte is zero encodes
to the same field element as its one-byte suffix, so decoding and trimming
leading zero bytes does not recover the original string, refuting the
unconditional round-trip in the claim. -/
theorem short_string_roundtrip_fails_on_leading_zero :
    cairo_short_string_to_felt [0, 97] = .ok 97 ∧
    List.dropWhile (fun b => b == 0) (natToBytesFixed 32 97) = [97] ∧
    ([97] : List Nat) ≠ [0, 97] := by
  refine ⟨by rfl, by rfl, by decide⟩

/-- C6 amended: the encoder fails with `StringTooLong` exactly when the
byte length exceeds 31; otherwise it returns the right-aligned 32-byte
big-endian value; and decoding plus trimming of leading zero bytes recovers
the input whenever the input is empty or starts with a nonzero byte (the
leading-zero counterexample forces this extra condition). -/
theorem short_string_encoder_spec :
    ∀ s : List Nat, (∀ b ∈ s, b < 256) →
      ((cairo_short_string_to_felt s = .error .stringTooLong) ↔
        31 < s.length) ∧
      (s.length ≤ 31 →
        cairo_short_string_to_felt s =
          .ok (bytesToNat (List.replicate (32 - s.length) 0 ++ s))) ∧
      (s.length ≤ 31 → (s = [] ∨ ∃ a t, s = a :: t ∧ a ≠ 0) →
        List.dropWhile (fun b => b == 0)
          (natToBytesFixed 32 (bytesToNat s)) = s) := by
  intro s hb
  refine ⟨⟨?_, ?_⟩, ?_, ?_⟩
  · intro h
    by_contra hlen
    push_neg at hlen
    rw [cairo_short_string_value hlen hb] at h
    exact Except.noConfusion h
  · intro hlen
    rw [cairo_short_string_to_felt, if_pos (by omega)]
  · intro hlen
    rw [cairo_short_string_value hlen hb, bytesToNat_replicate_zero_append]
  · intro hlen hhead
    exact short_string_roundtrip hlen hb hhead

/-- C6 amended witness: the theorem applied to the two-byte string `v0`. -/
theorem short_string_encoder_spec_witness :
    cairo_short_string_to_felt [118, 48] =
      .ok (bytesToNat (List.replicate 30 0 ++ [118, 48])) ∧
    List.dropWhile (fun b => b == 0)
      (natToBytesFixed 32 (bytesToNat [118, 48])) = [118, 48] := by
  have h := short_string_encoder_spec [118, 48] (by decide)
  exact ⟨h.2.1 (by norm_num), h.2.2 (by norm_num)
    (Or.inr ⟨118, [48], rfl, by norm_num⟩)⟩

theorem key_value_limit_lt_prime : KEY_VALUE_LIMIT < FIELD_PRIME := by
  norm_num [KEY_VALUE_LIMIT, FIELD_PRIME]

/-- C5: the Ethereum-signature key adapter fails with
`InvalidSignatureLength` exactly when fewer than 64 characters remain after
stripping the leading `0x` marker; otherwise, when the first 64 characters
hex-decode to the `r` bytes and the grinding loop terminates, it returns
the ground key derived from the big-endian value of those bytes. -/
theorem eth_signature_adapter_spec :
    ∀ (digest : List Nat → List Nat) (fuel : Nat) (signature : List Char),
      ((get_private_key_from_eth_signature_internal digest fuel signature =
          .error .invalidSignatureLength) ↔ (trim0x signature).length < 64) ∧
      (∀ (r_bytes : List Nat) (k : Nat),
        hexDecode ((trim0x signature).take 64) = some r_bytes →
        grind_key digest fuel (bytesToNat r_bytes) = some k →
        ¬ (trim0x signature).length < 64 →
        get_private_key_from_eth_signature_internal digest fuel signature =
          .ok k) := by
  intro digest fuel sig
  constructor
  · constructor
    · intro h
      by_contra hlen
      rw [get_private_key_from_eth_signature_internal, if_neg hlen] at h
      rcases hdec : hexDecode ((trim0x sig).take 64) with _ | bs <;>
        simp only [hdec] at h
      · exact absurd h (by simp)
      · rcases hgr : grind_key digest fuel (bytesToNat bs) with _ | g <;>
          simp only [hgr] at h
        · exact absurd h (by simp)
        · rw [parseFelt] at h
          split at h
          · exact Except.noConfusion h
          · exact absurd h (by simp)
    · intro hlen
      rw [get_private_key_from_eth_signature_internal, if_pos hlen]
  · intro bs k hdec hgr hlen
    rw [get_private_key_from_eth_signature_internal, if_neg hlen]
    simp only [hdec, hgr]
    have hk : k < KEY_VALUE_LIMIT := by
      rw [grind_key] at hgr
      exact grind_key_loop_lt digest (bytesToNat bs) fuel 0 k hgr
    have hp := key_value_limit_lt_prime
    exact parseFelt_ok (by omega)

/-- C5 witness: a signature of 64 zero characters decodes to 32 zero bytes
and derives the ground key of the zero seed. -/
theorem eth_signature_adapter_spec_witness :
    get_private_key_from_eth_signature_internal (fun _ => []) 1
      (List.replicate 64 (Char.ofNat 48)) = .ok 0 := by
  exact (eth_signature_adapter_spec (fun _ => []) 1
      (List.replicate 64 (Char.ofNat 48))).2
    (List.replicate 32 0) 0 (by rfl) (by rfl) (by decide)

theorem domain_selector_lt_prime : STARKNET_DOMAIN_SELECTOR < FIELD_PRIME := by
  decide

theorem order_selector_lt_prime : ORDER_SELECTOR < FIELD_PRIME := by decide

theorem transfer_selector_lt_prime : TRANSFER_ARGS_SELECTOR < FIELD_PRIME := by
  decide

theorem withdrawal_selector_lt_prime :
    WITHDRAWAL_ARGS_SELECTOR < FIELD_PRIME := by decide

theorem message_bytes_short : STARKNET_MESSAGE_BYTES.length ≤ 31 := by decide

theorem message_bytes_are_bytes : ∀ b ∈ STARKNET_MESSAGE_BYTES, b < 256 := by
  decide

theorem hash_starknet_domain_ok (S : List Nat → Nat) {dn dv dc : List Nat}
    (rev : Nat)
    (hdn1 : dn.length ≤ 31) (hdn2 : ∀ b ∈ dn, b < 256)
    (hdv1 : dv.length ≤ 31) (hdv2 : ∀ b ∈ dv, b < 256)
    (hdc1 : dc.length ≤ 31) (hdc2 : ∀ b ∈ dc, b < 256) :
    hash_starknet_domain S dn dv dc rev =
      .ok (S [STARKNET_DOMAIN_SELECTOR, bytesToNat dn, bytesToNat dv,
        bytesToNat dc, rev]) := by
  rw [hash_starknet_domain, parseFelt_ok domain_selector_lt_prime,
    cairo_short_string_value hdn1 hdn2, cairo_short_string_value hdv1 hdv2,
    cairo_short_string_value hdc1 hdc2]
  rfl

/-- C4: for each message kind, the final message hash is the sponge applied
to the encoded StarkNet-Message tag, the domain hash, the signer public key
and the per-message hash, and the returned string is that value rendered as
minimal (non-zero-padded) lowercase hex behind the two marker characters. -/
theorem msg_hash_final_sponge_and_minimal_hex :
    ∀ (S : List Nat → Nat) (dn dv dc : List Nat) (rev upk : Nat),
      dn.length ≤ 31 → (∀ b ∈ dn, b < 256) →
      dv.length ≤ 31 → (∀ b ∈ dv, b < 256) →
      dc.length ≤ 31 → (∀ b ∈ dc, b < 256) →
      upk < FIELD_PRIME →
      (∀ (pid baa : Nat) (bam : Int) (qaa : Nat) (qam : Int)
          (fee faa expi salt : Nat),
        baa < FIELD_PRIME → qaa < FIELD_PRIME → faa < FIELD_PRIME →
        get_order_msg_hash S pid baa bam qaa qam fee faa expi salt upk
            dn dv dc rev =
          .ok (renderHexMinimal (S [bytesToNat STARKNET_MESSAGE_BYTES,
            S [STARKNET_DOMAIN_SELECTOR, bytesToNat dn, bytesToNat dv,
               bytesToNat dc, rev],
            upk,
            S [ORDER_SELECTOR, fromU64 (pid % 2 ^ 32), baa, i64_to_felt bam,
               qaa, i64_to_felt qam, faa, fromU64 fee, fromU64 expi,
               fromU64 salt]]))) ∧
      (∀ (rpid spid amt expi salt coll : Nat),
        salt < FIELD_PRIME → coll < FIELD_PRIME →
        get_transfer_msg_hash S rpid spid amt expi salt upk dn dv dc rev
            coll =
          .ok (renderHexMinimal (S [bytesToNat STARKNET_MESSAGE_BYTES,
            S [STARKNET_DOMAIN_SELECTOR, bytesToNat dn, bytesToNat dv,
               bytesToNat dc, rev],
            upk,
            S [TRANSFER_ARGS_SELECTOR, fromU64 (rpid % 2 ^ 32),
               fromU64 (spid % 2 ^ 32), coll, fromU64 amt, fromU64 expi,
               salt]]))) ∧
      (∀ (recip pid amt expi salt coll : Nat),
        recip < FIELD_PRIME → salt < FIELD_PRIME → coll < FIELD_PRIME →
        get_withdrawal_msg_hash S recip pid amt expi salt upk dn dv dc rev
            coll =
          .ok (renderHexMinimal (S [bytesToNat STARKNET_MESSAGE_BYTES,
            S [STARKNET_DOMAIN_SELECTOR, bytesToNat dn, bytesToNat dv,
               bytesToNat dc, rev],
            upk,
            S [WITHDRAWAL_ARGS_SELECTOR, recip, fromU64 (pid % 2 ^ 32),
               coll, fromU64 amt, fromU64 expi, salt]]))) ∧
      (∀ n : Nat,
        renderHexMinimal n =
          Char.ofNat 48 :: Char.ofNat 120 :: toStrRadix16 n ∧
        (n ≠ 0 → ∃ c t, toStrRadix16 n = c :: t ∧ c ≠ Char.ofNat 48) ∧
        (∀ c ∈ toStrRadix16 n, c ∈ HEX_CHARS_LOWER) ∧
        toStrRadix16 0 = [hexDigitChar 0]) := by
  intro S dn dv dc rev upk hdn1 hdn2 hdv1 hdv2 hdc1 hdc2 hupk
  have hdom := hash_starknet_domain_ok S rev
    hdn1 hdn2 hdv1 hdv2 hdc1 hdc2
  have hmsg := cairo_short_string_value message_bytes_short
    message_bytes_are_bytes
  refine ⟨?_, ?_, ?_, ?_⟩
  · intro pid baa bam qaa qam fee faa expi salt hbaa hqaa hfaa
    rw [get_order_msg_hash, parseFelt_ok hbaa, parseFelt_ok hqaa,
      parseFelt_ok hfaa, parseFelt_ok hupk,
      parseFelt_ok order_selector_lt_prime, hdom, hmsg]
    rfl
  · intro rpid spid amt expi salt coll hsalt hcoll
    rw [get_transfer_msg_hash, parseFelt_ok hsalt, parseFelt_ok hcoll,
      parseFelt_ok hupk, parseFelt_ok transfer_selector_lt_prime, hdom, hmsg]
    rfl
  · intro recip pid amt expi salt coll hrecip hsalt hcoll
    rw [get_withdrawal_msg_hash, parseFelt_ok hrecip, parseFelt_ok hsalt,
      parseFelt_ok hcoll, parseFelt_ok hupk,
      parseFelt_ok withdrawal_selector_lt_prime, hdom, hmsg]
    rfl
  · intro n
    exact ⟨renderHexMinimal_eq n, fun hn => toStrRadix16_head_ne_zero hn,
      toStrRadix16_mem_lower n, rfl⟩

/-- C4 witness: the theorem applied with the sponge instantiated to
`bytesToNat`, empty domain strings and small concrete arguments. -/
theorem msg_hash_final_sponge_witness :
    get_order_msg_hash bytesToNat 5 1 0 1 0 2 1 3 4 1 [] [] [] 0 =
      .ok (renderHexMinimal (bytesToNat [bytesToNat STARKNET_MESSAGE_BYTES,
        bytesToNat [STARKNET_DOMAIN_SELECTOR, bytesToNat [], bytesToNat [],
          bytesToNat [], 0],
        1,
        bytesToNat [ORDER_SELECTOR, fromU64 (5 % 2 ^ 32), 1, i64_to_felt 0,
          1, i64_to_felt 0, 1, fromU64 2, fromU64 3, fromU64 4]])) ∧
    get_transfer_msg_hash bytesToNat 1 2 3 4 5 1 [] [] [] 0 6 =
      .ok (renderHexMinimal (bytesToNat [bytesToNat STARKNET_MESSAGE_BYTES,
        bytesToNat [STARKNET_DOMAIN_SELECTOR, bytesToNat [], bytesToNat [],
          bytesToNat [], 0],
        1,
        bytesToNat [TRANSFER_ARGS_SELECTOR, fromU64 (1 % 2 ^ 32),
          fromU64 (2 % 2 ^ 32), 6, fromU64 3, fromU64 4, 5]])) ∧
    get_withdrawal_msg_hash bytesToNat 7 2 3 4 5 1 [] [] [] 0 6 =
      .ok (renderHexMinimal (bytesToNat [bytesToNat STARKNET_MESSAGE_BYTES,
        bytesToNat [STARKNET_DOMAIN_SELECTOR, bytesToNat [], bytesToNat [],
          bytesToNat [], 0],
        1,
        bytesToNat [WITHDRAWAL_ARGS_SELECTOR, 7, fromU64 (2 % 2 ^ 32), 6,
          fromU64 3, fromU64 4, 5]])) := by
  have h := msg_hash_final_sponge_and_minimal_hex bytesToNat [] [] [] 0 1
    (by norm_num) (by simp) (by norm_num) (by simp) (by norm_num) (by simp)
    (by norm_num [FIELD_PRIME])
  exact ⟨h.1 5 1 0 1 0 2 1 3 4 (by norm_num [FIELD_PRIME])
      (by norm_num [FIELD_PRIME]) (by norm_num [FIELD_PRIME]),
    h.2.1 1 2 3 4 5 6 (by norm_num [FIELD_PRIME]) (by norm_num [FIELD_PRIME]),
    h.2.2.1 7 2 3 4 5 6 (by norm_num [FIELD_PRIME])
      (by norm_num [FIELD_PRIME]) (by norm_num [FIELD_PRIME])⟩

/-- C1 counterexample: a call to `get_order_msg_hash` whose `u64` position
id equals `2^32` (which does not fit in a `u32`) does not fail at all — it
succeeds and returns the same hash as the call with position id `0`,
because the id is silently truncated by the `as u32` cast; no `InvalidField`
error exists in the code. -/
theorem position_id_overflow_no_error :
    get_order_msg_hash bytesToNat (2 ^ 32) 1 0 1 0 2 1 3 4 1 [] [] [] 0 =
      get_order_msg_hash bytesToNat 0 1 0 1 0 2 1 3 4 1 [] [] [] 0 ∧
    (get_order_msg_hash bytesToNat (2 ^ 32) 1 0 1 0 2 1 3 4 1
      [] [] [] 0).isOk = true := by
  constructor <;> rfl

/-- C1 amended: the three hash builders never range-check the `u64`
position-id arguments; each is reduced modulo `2^32` (the semantics of the
`as u32` cast) before hashing, so any call behaves exactly as the call with
the truncated id. -/
theorem position_id_truncated_mod_u32 :
    ∀ (S : List Nat → Nat) (pid baa : Nat) (bam : Int) (qaa : Nat)
      (qam : Int) (fee faa expi salt upk : Nat) (dn dv dc : List Nat)
      (rev rpid spid amt tsalt coll recip wamt wsalt : Nat),
      get_order_msg_hash S pid baa bam qaa qam fee faa expi salt upk
          dn dv dc rev =
        get_order_msg_hash S (pid % 2 ^ 32) baa bam qaa qam fee faa expi
          salt upk dn dv dc rev ∧
      get_transfer_msg_hash S rpid spid amt expi tsalt upk dn dv dc rev
          coll =
        get_transfer_msg_hash S (rpid % 2 ^ 32) (spid % 2 ^ 32) amt expi
          tsalt upk dn dv dc rev coll ∧
      get_withdrawal_msg_hash S recip pid wamt expi wsalt upk dn dv dc rev
          coll =
        get_withdrawal_msg_hash S recip (pid % 2 ^ 32) wamt expi wsalt upk
          dn dv dc rev coll := by
  intro S pid baa bam qaa qam fee faa expi salt upk dn dv dc rev rpid spid
    amt tsalt coll recip wamt wsalt
  have hm : ∀ n : Nat, n % 2 ^ 32 % 2 ^ 32 = n % 2 ^ 32 := fun n =>
    Nat.mod_mod_of_dvd n dvd_rfl
  refine ⟨?_, ?_, ?_⟩
  · conv_rhs => rw [get_order_msg_hash, hm pid]
    rw [get_order_msg_hash]
  · conv_rhs => rw [get_transfer_msg_hash, hm rpid, hm spid]
    rw [get_transfer_msg_hash]
  · conv_rhs => rw [get_withdrawal_msg_hash, hm pid]
    rw [get_withdrawal_msg_hash]

/-- C8: the signing, hashing and grinding operations are deterministic —
any two calls with identical arguments (and the same delegated primitives)
return identical outputs; the embedding of each operation is a pure
function of its arguments with no hidden state. -/
theorem operations_deterministic :
    (∀ (K : Nat → Nat → Nat) (Rx : Nat → Nat) (p h p' h' : Nat),
      p = p' → h = h' → sign K Rx p h = sign K Rx p' h') ∧
    (∀ (digest : List Nat → List Nat) (fuel s s' : Nat),
      s = s' → grind_key digest fuel s = grind_key digest fuel s') ∧
    (∀ (S : List Nat → Nat) (pid baa : Nat) (bam : Int) (qaa : Nat)
        (qam : Int) (fee faa expi salt upk : Nat) (dn dv dc : List Nat)
        (rev pid' baa' : Nat) (bam' : Int) (qaa' : Nat) (qam' : Int)
        (fee' faa' expi' salt' upk' : Nat) (dn' dv' dc' : List Nat)
        (rev' : Nat),
      (pid, baa, bam, qaa, qam, fee, faa, expi, salt, upk, dn, dv, dc,
          rev) =
        (pid', baa', bam', qaa', qam', fee', faa', expi', salt', upk',
          dn', dv', dc', rev') →
      get_order_msg_hash S pid baa bam qaa qam fee faa expi salt upk
          dn dv dc rev =
        get_order_msg_hash S pid' baa' bam' qaa' qam' fee' faa' expi'
          salt' upk' dn' dv' dc' rev') ∧
    (∀ (S : List Nat → Nat) (rpid spid amt expi salt upk : Nat)
        (dn dv dc : List Nat) (rev coll : Nat)
        (rpid' spid' amt' expi' salt' upk' : Nat) (dn' dv' dc' : List Nat)
        (rev' coll' : Nat),
      (rpid, spid, amt, expi, salt, upk, dn, dv, dc, rev, coll) =
        (rpid', spid', amt', expi', salt', upk', dn', dv', dc', rev',
          coll') →
      get_transfer_msg_hash S rpid spid amt expi salt upk dn dv dc rev
          coll =
        get_transfer_msg_hash S rpid' spid' amt' expi' salt' upk'
          dn' dv' dc' rev' coll') ∧
    (∀ (S : List Nat → Nat) (recip pid amt expi salt upk : Nat)
        (dn dv dc : List Nat) (rev coll : Nat)
        (recip' pid' amt' expi' salt' upk' : Nat) (dn' dv' dc' : List Nat)
        (rev' coll' : Nat),
      (recip, pid, amt, expi, salt, upk, dn, dv, dc, rev, coll) =
        (recip', pid', amt', expi', salt', upk', dn', dv', dc', rev',
          coll') →
      get_withdrawal_msg_hash S recip pid amt expi salt upk dn dv dc rev
          coll =
        get_withdrawal_msg_hash S recip' pid' amt' expi' salt' upk'
          dn' dv' dc' rev' coll') := by
  refine ⟨?_, ?_, ?_, ?_, ?_⟩
  · intro K Rx p h p' h' hp hh
    subst hp
    subst hh
    rfl
  · intro digest fuel s s' hs
    subst hs
    rfl
  · intro S pid baa bam qaa qam fee faa expi salt upk dn dv dc rev
      pid' baa' bam' qaa' qam' fee' faa' expi' salt' upk' dn' dv' dc' rev'
      hEq
    simp only [Prod.mk.injEq] at hEq
    obtain ⟨rfl, rfl, rfl, rfl, rfl, rfl, rfl, rfl, rfl, rfl, rfl, rfl,
      rfl, rfl⟩ := hEq
    rfl
  · intro S rpid spid amt expi salt upk dn dv dc rev coll
      rpid' spid' amt' expi' salt' upk' dn' dv' dc' rev' coll' hEq
    simp only [Prod.mk.injEq] at hEq
    obtain ⟨rfl, rfl, rfl, rfl, rfl, rfl, rfl, rfl, rfl, rfl, rfl⟩ := hEq
    rfl
  · intro S recip pid amt expi salt upk dn dv dc rev coll
      recip' pid' amt' expi' salt' upk' dn' dv' dc' rev' coll' hEq
    simp only [Prod.mk.injEq] at hEq
    obtain ⟨rfl, rfl, rfl, rfl, rfl, rfl, rfl, rfl, rfl, rfl, rfl⟩ := hEq
    rfl

/-- C8 witness: the determinism theorem applied at concrete repeated
arguments for each of the five operations. -/
theorem operations_deterministic_witness :
    sign (fun _ _ => 1) (fun k => k) 1 2 =
      sign (fun _ _ => 1) (fun k => k) 1 2 ∧
    grind_key (fun _ => []) 1 0 = grind_key (fun _ => []) 1 0 ∧
    get_order_msg_hash bytesToNat 0 1 0 1 0 0 1 0 0 1 [] [] [] 0 =
      get_order_msg_hash bytesToNat 0 1 0 1 0 0 1 0 0 1 [] [] [] 0 ∧
    get_transfer_msg_hash bytesToNat 1 2 3 4 5 1 [] [] [] 0 6 =
      get_transfer_msg_hash bytesToNat 1 2 3 4 5 1 [] [] [] 0 6 ∧
    get_withdrawal_msg_hash bytesToNat 7 2 3 4 5 1 [] [] [] 0 6 =
      get_withdrawal_msg_hash bytesToNat 7 2 3 4 5 1 [] [] [] 0 6 :=
  ⟨operations_deterministic.1 (fun _ _ => 1) (fun k => k) 1 2 1 2 rfl rfl,
   operations_deterministic.2.1 (fun _ => []) 1 0 0 rfl,
   operations_deterministic.2.2.1 bytesToNat 0 1 0 1 0 0 1 0 0 1 [] [] [] 0
     0 1 0 1 0 0 1 0 0 1 [] [] [] 0 rfl,
   operations_deterministic.2.2.2.1 bytesToNat 1 2 3 4 5 1 [] [] [] 0 6
     1 2 3 4 5 1 [] [] [] 0 6 rfl,
   operations_deterministic.2.2.2.2 bytesToNat 7 2 3 4 5 1 [] [] [] 0 6
     7 2 3 4 5 1 [] [] [] 0 6 rfl⟩
